import Mathlib

/-!
Verification of the threshold key-custody and attested-signing engine of the
self-hosted-wallets repository.

The TypeScript sources under `src/enclave/src` (key manager, transaction
signer, attestation provider) and the enclave HTTP handlers are embedded
shallowly below.  JavaScript strings are Lean `String`s, byte buffers are
lists, JavaScript `Map`s are association lists with unique keys, thrown
exceptions are `Except` errors (the repo's error classes carry message
strings; here each error site is represented by its kind from the spec's
error taxonomy), and `Date.now()` timestamps are explicit `Int` parameters.

The external threshold secret-sharing library
(`@privy-io/shamir-secret-sharing`) and the `ethers` cryptographic
primitives are not part of the repository; they are modelled from the spec
(each such definition carries a `Modelled from the spec:` doc comment).
The secret-sharing scheme is Shamir interpolation, modelled per byte over
the prime field with 257 elements (a computable stand-in for the library's
byte field), with the share index embedded in the share buffer and the
split polynomial's random coefficients supplied as an explicit entropy
argument.
-/

namespace SelfHostedWallets

/-- Field over which each byte of a secret is shared.  `Modelled from the
spec:` the byte field of the external Shamir secret-sharing library,
represented as the prime field `ZMod 257` so that every byte value 0..255
embeds and all operations are computable. -/
abbrev GF : Type := ZMod 257

instance fact_prime_257 : Fact (Nat.Prime 257) := ⟨by norm_num⟩

/-- Iterated multiplication, used to implement field inversion computably. -/
def powGF (a : GF) : Nat → GF
  | 0 => 1
  | n + 1 => a * powGF a n

/-- Computable field inverse via Fermat's little theorem (`a⁻¹ = a ^ 255`). -/
def invGF (a : GF) : GF := powGF a 255

theorem powGF_eq_pow (a : GF) (n : Nat) : powGF a n = a ^ n := by
  induction n with
  | zero => simp [powGF]
  | succ n ih => rw [powGF, ih, pow_succ]; ring

theorem invGF_eq_inv (a : GF) : invGF a = a⁻¹ := by
  rw [invGF, powGF_eq_pow]
  by_cases h : a = 0
  · subst h
    rw [zero_pow (by norm_num), inv_zero]
  · have h256 : a ^ (257 - 1) = 1 := ZMod.pow_card_sub_one_eq_one h
    refine eq_inv_of_mul_eq_one_left ?_
    calc a ^ 255 * a = a ^ 256 := by rw [← pow_succ]
    _ = 1 := h256

/-- Horner evaluation of the polynomial with coefficient list `c`
(constant term first) at `x`. -/
def polyEval (c : List GF) (x : GF) : GF :=
  match c with
  | [] => 0
  | a :: rest => a + x * polyEval rest x

theorem polyEval_nil (x : GF) : polyEval [] x = 0 := rfl

theorem polyEval_zero (c : List GF) : polyEval c 0 = c.headD 0 := by
  cases c with
  | nil => rfl
  | cons a t => simp [polyEval]

theorem foldr_poly_eval (c : List GF) (x : GF) :
    (c.foldr (fun a p => Polynomial.C a + Polynomial.X * p) 0).eval x = polyEval c x := by
  induction c with
  | nil => simp [polyEval]
  | cons a t ih => simp [polyEval, ih]

theorem foldr_poly_degree (c : List GF) :
    (c.foldr (fun a p => Polynomial.C a + Polynomial.X * p) 0).degree
      < (c.length : WithBot ℕ) := by
  induction c with
  | nil =>
    simp only [List.foldr_nil, Polynomial.degree_zero, List.length_nil, Nat.cast_zero]
    exact WithBot.bot_lt_coe 0
  | cons a t ih =>
    refine lt_of_le_of_lt (Polynomial.degree_add_le _ _) (max_lt ?_ ?_)
    · exact lt_of_le_of_lt Polynomial.degree_C_le
        (by exact_mod_cast WithBot.coe_lt_coe.mpr (Nat.succ_pos t.length))
    · rw [Polynomial.degree_mul, Polynomial.degree_X]
      have hstep : (1 : WithBot ℕ) +
          (t.foldr (fun a p => Polynomial.C a + Polynomial.X * p) 0).degree
          < 1 + (t.length : WithBot ℕ) :=
        WithBot.add_lt_add_left (by simp) ih
      refine lt_of_lt_of_le hstep (le_of_eq ?_)
      rw [List.length_cons]
      push_cast
      ring

/-- Lagrange interpolation of the given `(x, y)` points, evaluated at zero:
the classical `∑ⱼ yⱼ · ∏_{k ≠ j} xₖ / (xₖ − xⱼ)` combination used by
Shamir reconstruction.  `Modelled from the spec:` the combination step of
the external secret-sharing library. -/
def lagrangeAtZero (pts : List (GF × GF)) : GF :=
  ∑ j ∈ Finset.range pts.length,
    (pts.getD j (0, 0)).2 *
      ∏ k ∈ (Finset.range pts.length).erase j,
        ((pts.getD k (0, 0)).1 * invGF ((pts.getD k (0, 0)).1 - (pts.getD j (0, 0)).1))

theorem lagrangeAtZero_eq (pts : List (GF × GF)) (c : List GF)
    (hlen : c.length ≤ pts.length)
    (hinj : ∀ j k, j < pts.length → k < pts.length → j ≠ k →
      (pts.getD j (0, 0)).1 ≠ (pts.getD k (0, 0)).1)
    (hval : ∀ j, j < pts.length →
      (pts.getD j (0, 0)).2 = polyEval c (pts.getD j (0, 0)).1) :
    lagrangeAtZero pts = polyEval c 0 := by
  classical
  set f : Polynomial GF := c.foldr (fun a p => Polynomial.C a + Polynomial.X * p) 0 with hf
  set v : ℕ → GF := fun j => (pts.getD j (0, 0)).1 with hv
  have hvs : Set.InjOn v (Finset.range pts.length) := by
    intro a ha b hb hab
    by_contra hne
    exact hinj a b (by simpa using ha) (by simpa using hb) hne hab
  have hdeg : f.degree < ((Finset.range pts.length).card : WithBot ℕ) := by
    rw [Finset.card_range]
    exact lt_of_lt_of_le (foldr_poly_degree c) (by exact_mod_cast hlen)
  have hinterp := Lagrange.eq_interpolate hvs hdeg
  have heval := congrArg (Polynomial.eval 0) hinterp
  rw [Lagrange.interpolate_apply, Polynomial.eval_finset_sum] at heval
  simp only [Polynomial.eval_mul, Polynomial.eval_C] at heval
  have hbasis : ∀ j, Polynomial.eval 0 (Lagrange.basis (Finset.range pts.length) v j)
      = ∏ k ∈ (Finset.range pts.length).erase j, (v k * invGF (v k - v j)) := by
    intro j
    rw [Lagrange.basis, Polynomial.eval_prod]
    refine Finset.prod_congr rfl fun k _ => ?_
    rw [Lagrange.basisDivisor]
    simp only [Polynomial.eval_mul, Polynomial.eval_C, Polynomial.eval_sub,
      Polynomial.eval_X]
    rw [invGF_eq_inv, show v j - v k = -(v k - v j) by ring, inv_neg]
    ring
  calc lagrangeAtZero pts
      = ∑ j ∈ Finset.range pts.length,
          f.eval (v j) * Polynomial.eval 0 (Lagrange.basis (Finset.range pts.length) v j) := by
        unfold lagrangeAtZero
        refine Finset.sum_congr rfl fun j hj => ?_
        rw [hbasis j, foldr_poly_eval, ← hval j (Finset.mem_range.mp hj)]
    _ = f.eval 0 := heval.symm
    _ = polyEval c 0 := foldr_poly_eval c 0

/-! ### Threshold secret splitting (external library, modelled from the spec) -/

/-- Error kinds of the key custodian, following the spec's `CustodyError`
taxonomy (the source's `KeyManagerError` carries these cases as message
strings). -/
inductive KeyManagerErrorKind
  | invalidParameters
  | insufficientShares
  | invalidReconstruction
deriving DecidableEq, Repr

/-- Split/reconstruction parameters (source `SSS` interface in `types.ts`). -/
structure SSSConfig where
  threshold : Nat
  numShares : Nat
deriving DecidableEq, Repr

/-- One share buffer: the share's nonzero x-coordinate together with the
per-byte y-values.  `Modelled from the spec:` the external library's share
byte string, which embeds the share index alongside the evaluated bytes. -/
abbrev ShareBuf : Type := GF × List GF

/-- Coefficient list (constant term first) of the degree `< t` polynomial
sharing byte `i` of the secret; the non-constant coefficients come from the
explicit entropy stream. -/
def shareCoeffs (secret : List GF) (t : Nat) (entropy : Nat → Nat → GF) (i : Nat) :
    List GF :=
  secret.getD i 0 :: (List.range (t - 1)).map (entropy i)

/-- `Modelled from the spec:` `sss.split` of the external
`@privy-io/shamir-secret-sharing` library.  Fails with `InvalidParameters`
when `threshold < 2` or `threshold > shareCount`; otherwise byte `i` of
share `j` is the sharing polynomial of byte `i` evaluated at `x = j + 1`. -/
def sssSplit (secret : List GF) (config : SSSConfig) (entropy : Nat → Nat → GF) :
    Except KeyManagerErrorKind (List ShareBuf) :=
  if config.threshold < 2 || config.numShares < config.threshold then
    .error .invalidParameters
  else
    .ok ((List.range config.numShares).map (fun j =>
      (((j + 1 : Nat) : GF),
        (List.range secret.length).map (fun i =>
          polyEval (shareCoeffs secret config.threshold entropy i) ((j + 1 : Nat) : GF)))))

/-- `Modelled from the spec:` `sss.combine` of the external library:
position-wise Lagrange interpolation at zero of the supplied shares. -/
def sssCombine (shares : List ShareBuf) : List GF :=
  match shares with
  | [] => []
  | s0 :: _ =>
    (List.range s0.2.length).map (fun i =>
      lagrangeAtZero (shares.map (fun s => (s.1, s.2.getD i 0))))

theorem map_getD_range (l : List GF) (d : GF) :
    (List.range l.length).map (fun i => l.getD i d) = l := by
  refine List.ext_getElem (by simp) fun i h1 h2 => ?_
  simp [List.getD_eq_getElem?_getD, List.getElem?_eq_getElem h2]

/-- Core Shamir round-trip: combining any selection of at least `threshold`
pairwise-distinct shares of a successful split recovers the secret. -/
theorem sssCombine_selection (secret : List GF) (config : SSSConfig)
    (entropy : Nat → Nat → GF) (bufs : List ShareBuf) (sel : List Nat)
    (h2 : 2 ≤ config.threshold) (hn : config.numShares ≤ 255)
    (hsplit : sssSplit secret config entropy = .ok bufs)
    (hnodup : sel.Nodup) (hmem : ∀ j ∈ sel, j < config.numShares)
    (hcard : config.threshold ≤ sel.length) :
    sssCombine (sel.map (fun j => bufs.getD j ((0 : GF), []))) = secret := by
  classical
  have hok : bufs = (List.range config.numShares).map (fun j =>
      (((j + 1 : Nat) : GF),
        (List.range secret.length).map (fun i =>
          polyEval (shareCoeffs secret config.threshold entropy i) ((j + 1 : Nat) : GF)))) := by
    unfold sssSplit at hsplit
    split at hsplit
    · exact absurd hsplit (by simp)
    · simpa using hsplit.symm
  -- the selected share for index `j < numShares`
  have hbuf : ∀ j, j < config.numShares → bufs.getD j ((0 : GF), []) =
      (((j + 1 : Nat) : GF),
        (List.range secret.length).map (fun i =>
          polyEval (shareCoeffs secret config.threshold entropy i) ((j + 1 : Nat) : GF))) := by
    intro j hj
    subst hok
    rw [List.getD_eq_getElem _ _ (by simpa using hj)]
    simp
  have hselne : sel ≠ [] := by
    intro h
    subst h
    simp at hcard
    omega
  have hcast_inj : ∀ a b : Nat, a < config.numShares → b < config.numShares →
      (((a + 1 : Nat) : GF) = ((b + 1 : Nat) : GF)) → a = b := by
    intro a b ha hb hab
    rw [ZMod.natCast_eq_natCast_iff'] at hab
    rw [Nat.mod_eq_of_lt (by omega), Nat.mod_eq_of_lt (by omega)] at hab
    omega
  -- rewrite the selected shares pointwise
  set g : Nat → ShareBuf := fun j =>
    ((((j + 1 : Nat) : GF)),
      (List.range secret.length).map (fun i =>
        polyEval (shareCoeffs secret config.threshold entropy i) ((j + 1 : Nat) : GF)))
    with hg
  have hmapped : sel.map (fun j => bufs.getD j ((0 : GF), [])) = sel.map g :=
    List.map_congr_left fun j hj => hbuf j (hmem j hj)
  rw [hmapped]
  have hcomb : sssCombine (sel.map g) = (List.range secret.length).map
      (fun i => lagrangeAtZero ((sel.map g).map (fun s => (s.1, s.2.getD i 0)))) := by
    cases sel with
    | nil => exact absurd rfl hselne
    | cons a t =>
      rw [List.map_cons]
      show (List.range (g a).2.length).map (fun i =>
        lagrangeAtZero ((g a :: t.map g).map (fun s => (s.1, s.2.getD i 0)))) = _
      rw [← List.map_cons g]
      congr 2
      simp [hg]
  rw [hcomb]
  conv_rhs => rw [← map_getD_range secret 0]
  refine List.map_congr_left fun i hi => ?_
  rw [List.mem_range] at hi
  rw [List.map_map]
  have hpts : sel.map ((fun s : ShareBuf => (s.1, s.2.getD i 0)) ∘ g) =
      sel.map (fun j =>
        ((((j + 1 : Nat) : GF)),
          polyEval (shareCoeffs secret config.threshold entropy i) ((j + 1 : Nat) : GF))) := by
    refine List.map_congr_left fun j hj => ?_
    simp only [Function.comp_apply, hg]
    congr 1
    rw [List.getD_eq_getElem _ _ (by simpa using hi)]
    simp
  rw [hpts]
  have hcoeff_len : (shareCoeffs secret config.threshold entropy i).length =
      config.threshold := by
    simp only [shareCoeffs, List.length_cons, List.length_map, List.length_range]
    omega
  rw [lagrangeAtZero_eq _ (shareCoeffs secret config.threshold entropy i)
    (by rw [hcoeff_len, List.length_map]; exact hcard)
    ?_ ?_]
  · rw [polyEval_zero]
    simp [shareCoeffs]
  · -- pairwise distinct x-coordinates
    intro a b ha hb hab
    rw [List.length_map] at ha hb
    rw [List.getD_eq_getElem _ _ (by simpa using ha),
      List.getD_eq_getElem _ _ (by simpa using hb)]
    simp only [List.getElem_map]
    intro hx
    have hga : sel[a] ∈ sel := List.getElem_mem ha
    have hgb : sel[b] ∈ sel := List.getElem_mem hb
    have heq : sel[a] = sel[b] :=
      hcast_inj _ _ (hmem _ hga) (hmem _ hgb) hx
    exact hab ((List.Nodup.getElem_inj_iff hnodup).mp heq)
  · -- y-values lie on the sharing polynomial
    intro j hj
    rw [List.length_map] at hj
    rw [List.getD_eq_getElem _ _ (by simpa using hj)]
    simp

/-! ### Wallet primitives (ethers, modelled from the spec) -/

/-- Order of the secp256k1 group: `new ethers.Wallet` accepts exactly the
32-byte values in `[1, secpOrder)`. -/
def secpOrder : Nat :=
  115792089237316195423570985008687907852837564279074904382605163141518161494337

/-- Numeric value of a byte list (positional, base 257 matching the model
field). -/
def keyToNat (k : List GF) : Nat :=
  k.foldl (fun acc b => acc * 257 + b.val) 0

/-- `Modelled from the spec:` validity check performed by
`new ethers.Wallet(privateKey)` — a 32-byte value that is a valid
secp256k1 scalar. -/
def validKey (k : List GF) : Bool :=
  k.length == 32 && keyToNat k != 0 && decide (keyToNat k < secpOrder)

/-- Hex digit characters `0`-`9`, `A`-`F` (uppercase). -/
def hexCharUpper (n : Nat) : Char :=
  if n < 10 then Char.ofNat (48 + n) else Char.ofNat (55 + n)

/-- Two uppercase hex characters for a byte value. -/
def byteHexUpper (b : Nat) : List Char :=
  [hexCharUpper (b / 16 % 16), hexCharUpper (b % 16)]

/-- `Modelled from the spec:` deterministic public-key derivation performed
by `ethers` (`wallet.publicKey`), represented as an uncompressed-style
`0x04…` hex string computed from the private key by a fixed byte mixing. -/
def derivePublicKey (k : List GF) : String :=
  ⟨'0' :: 'x' :: '0' :: '4' :: k.flatMap (fun b => byteHexUpper ((b.val * 7 + 1) % 256))⟩

/-- `Modelled from the spec:` `ethers.utils.computeAddress(publicKey)` —
a deterministic, checksum-cased (mixed case) `0x…` address computed from
the public key. -/
def getAddressFromPublicKey (pub : String) : String :=
  ⟨'0' :: 'x' :: ((pub.data.drop 4).take 40)⟩

/-- Address that `ethers` derives for a private key
(`new ethers.Wallet(privateKey).address`). -/
def walletAddressOf (k : List GF) : String :=
  getAddressFromPublicKey (derivePublicKey k)

/-- JavaScript `String.prototype.toLowerCase`, per character. -/
def toLowerStr (s : String) : String :=
  ⟨s.data.map Char.toLower⟩

/-! ### Key cache (a JavaScript `Map` with unique keys) -/

/-- `Map.prototype.get`. -/
def cacheGet (c : List (String × List GF)) (k : String) : Option (List GF) :=
  match c with
  | [] => none
  | p :: rest => if p.1 = k then some p.2 else cacheGet rest k

/-- `Map.prototype.set`: overwrite the existing binding or append a new
one. -/
def cacheSet (c : List (String × List GF)) (k : String) (v : List GF) :
    List (String × List GF) :=
  match c with
  | [] => [(k, v)]
  | p :: rest => if p.1 = k then (k, v) :: rest else p :: cacheSet rest k v

/-- `Map.prototype.delete`: a `Map` holds at most one binding per key, so
deletion removes every association-list entry with that key. -/
def cacheDel (c : List (String × List GF)) (k : String) :
    List (String × List GF) :=
  c.filter (fun p => p.1 ≠ k)

theorem cacheGet_set_self (c : List (String × List GF)) (k : String) (v : List GF) :
    cacheGet (cacheSet c k v) k = some v := by
  induction c with
  | nil => simp [cacheSet, cacheGet]
  | cons p rest ih =>
    by_cases h : p.1 = k
    · simp [cacheSet, cacheGet, h]
    · simp [cacheSet, cacheGet, h, ih]

theorem cacheGet_del_self (c : List (String × List GF)) (k : String) :
    cacheGet (cacheDel c k) k = none := by
  induction c with
  | nil => rfl
  | cons p rest ih =>
    by_cases h : p.1 = k
    · simpa [cacheDel, h] using ih
    · simpa [cacheDel, cacheGet, h] using ih

/-! ### Key Custodian (`KeyManager` in `keyManager.ts`) -/

/-- Mutable state of the `KeyManager`: its in-memory key cache
(`address → privateKey`). -/
structure KeyManagerState where
  keyCache : List (String × List GF)
deriving DecidableEq, Repr

namespace KeyManager

/-- `KeyManager.splitPrivateKey`: delegates to the library's `sss.split`
(hex transport between the key string and share strings is the canonical
byte encoding and is represented directly by the byte lists); library
errors are caught and re-thrown as `KeyManagerError`, preserving the
kind. -/
def splitPrivateKey (privateKey : List GF) (config : SSSConfig)
    (entropy : Nat → Nat → GF) : Except KeyManagerErrorKind (List ShareBuf) :=
  match sssSplit privateKey config entropy with
  | .ok shares => .ok shares
  | .error e => .error e

/-- `KeyManager.reconstructPrivateKey`: requires at least three shares (a
hardcoded minimum, independent of the threshold used at split time),
combines the share buffers (the `index` field of each entry is unused),
validates the result by constructing an `ethers` wallet from it, caches it
under the lowercased derived address, and returns it. -/
def reconstructPrivateKey (st : KeyManagerState)
    (shares : List (Nat × ShareBuf)) :
    Except KeyManagerErrorKind (List GF × KeyManagerState) :=
  if shares.length < 3 then .error .insufficientShares
  else
    let shareBuffers := shares.map Prod.snd
    let reconstructedKey := sssCombine shareBuffers
    if validKey reconstructedKey then
      .ok (reconstructedKey,
        ⟨cacheSet st.keyCache (toLowerStr (walletAddressOf reconstructedKey))
          reconstructedKey⟩)
    else .error .invalidReconstruction

/-- `KeyManager.getCachedPrivateKey`: cache lookup under the lowercased
address (`null` is `none`). -/
def getCachedPrivateKey (st : KeyManagerState) (walletAddress : String) :
    Option (List GF) :=
  cacheGet st.keyCache (toLowerStr walletAddress)

/-- `KeyManager.clearCachedKey`: removes the cache entry for the
lowercased address. -/
def clearCachedKey (st : KeyManagerState) (walletAddress : String) :
    KeyManagerState :=
  ⟨cacheDel st.keyCache (toLowerStr walletAddress)⟩

end KeyManager

/-! ### The `/reconstruct-key` handler (enclave HTTP server) -/

/-- Payload of a successful `/reconstruct-key` response: exactly the
wallet address, the public key and the `keyReconstructed` flag — the
response type has no private-key field. -/
structure ReconstructKeyData where
  walletAddress : String
  publicKey : String
  keyReconstructed : Bool
deriving DecidableEq, Repr

/-- The `/reconstruct-key` route: checks the share count, reconstructs via
the key manager (errors become the `success:false` response, modelled as
`.error` with the logged message), then responds with the address and
public key derived from the reconstructed key — never the key itself. -/
def reconstructKeyHandler (st : KeyManagerState)
    (shares : List (Nat × ShareBuf)) :
    Except String ReconstructKeyData × KeyManagerState :=
  if shares.length < 3 then (.error "Key reconstruction failed", st)
  else
    match KeyManager.reconstructPrivateKey st shares with
    | .error _ => (.error "Key reconstruction failed", st)
    | .ok (privateKey, st') =>
      let publicKey := derivePublicKey privateKey
      let walletAddress := getAddressFromPublicKey publicKey
      (.ok ⟨walletAddress, publicKey, true⟩, st')

/-! ### Transaction Signer (`signer.ts`) -/

/-- JavaScript truthiness of an optional string (`undefined` and the empty
string are falsy). -/
def truthy : Option String → Bool
  | none => false
  | some s => !(s == "")

/-- JavaScript `a || d` on an optional string. -/
def orDefault (o : Option String) (d : String) : String :=
  if truthy o then o.getD d else d

/-- Numeric value of a digit list. -/
def digitsToNat (l : List Char) : Nat :=
  l.foldl (fun a c => a * 10 + (c.toNat - 48)) 0

/-- `Modelled from the spec:` `ethers.utils.parseUnits(s, decimals)`
(and `parseEther` for `decimals = 18`): a decimal string, with at most
`decimals` fractional digits, scaled to an integer; malformed input
throws (`none`). -/
def parseUnits (s : String) (decimals : Nat) : Option Nat :=
  let intPart := s.data.takeWhile (fun c => c ≠ '.')
  let fracPart := (s.data.dropWhile (fun c => c ≠ '.')).drop 1
  if intPart.all Char.isDigit && fracPart.all Char.isDigit &&
      fracPart.length ≤ decimals && !(intPart.isEmpty && fracPart.isEmpty) then
    some (digitsToNat intPart * 10 ^ decimals +
      digitsToNat fracPart * 10 ^ (decimals - fracPart.length))
  else none

/-- Error kinds of the transaction signer, following the spec's
`SigningError` taxonomy (the source's `SigningError` carries message
strings; `ambiguousFeeModel` is the spec's fee-exclusivity error kind). -/
inductive SigningErrorKind
  | ambiguousFeeModel
  | missingFeeParameter
  | signingFailure
deriving DecidableEq, Repr

/-- Source `TransactionRequest` (`types.ts`): optional fields are
JavaScript `undefined` when absent. -/
structure TransactionRequest where
  toAddress : String
  value : Option String := none
  data : Option String := none
  gasLimit : Option String := none
  gasPrice : Option String := none
  maxFeePerGas : Option String := none
  maxPriorityFeePerGas : Option String := none
  nonce : Option Nat := none
  chainId : Nat
deriving DecidableEq, Repr

/-- The transaction object assembled by `signTransaction` before signing;
fee values are in wei. -/
structure PreparedTx where
  toAddress : String
  value : Nat
  data : String
  gasLimit : String
  chainId : Nat
  nonce : Nat
  gasPrice : Option Nat := none
  maxFeePerGas : Option Nat := none
  maxPriorityFeePerGas : Option Nat := none
deriving DecidableEq, Repr

/-- Source `SignedTransaction` (`types.ts`). -/
structure SignedTransaction where
  rawTransaction : String
  hash : String
  txFrom : String
  toAddress : String
  value : String
  gasLimit : String
  gasPrice : Option String
  maxFeePerGas : Option String
  maxPriorityFeePerGas : Option String
  nonce : Nat
  chainId : Nat
  v : String
  r : String
  s : String
deriving DecidableEq, Repr

/-- `Modelled from the spec:` `wallet.signTransaction` followed by
`ethers.utils.parseTransaction` — a deterministic signature over the
canonical encoding; parsing the raw transaction returns the prepared
fields, with the sender recovered from the signature (the wallet's
address) and opaque deterministic placeholders for the encoding, hash and
signature components. -/
def walletSignAndParse (tx : PreparedTx) (privateKey : List GF) :
    SignedTransaction where
  rawTransaction := "0xraw"
  hash := ⟨'0' :: 'x' :: byteHexUpper ((keyToNat privateKey + tx.value + tx.nonce) % 256)⟩
  txFrom := walletAddressOf privateKey
  toAddress := tx.toAddress
  value := toString tx.value
  gasLimit := tx.gasLimit
  gasPrice := tx.gasPrice.map toString
  maxFeePerGas := tx.maxFeePerGas.map toString
  maxPriorityFeePerGas := tx.maxPriorityFeePerGas.map toString
  nonce := tx.nonce
  chainId := tx.chainId
  v := "27"
  r := "0xr"
  s := "0xs"

namespace TransactionSigner

/-- `TransactionSigner.signTransaction`: builds the transaction object
(`value ? parseEther(value) : '0'`, `data || '0x'`,
`gasLimit || '21000'`), then picks the fee model — EIP-1559 when both
`maxFeePerGas` and `maxPriorityFeePerGas` are truthy, else legacy when
`gasPrice` is truthy, else no fee fields — signs and re-parses.  Any
thrown error (invalid key, malformed numeric string) is re-thrown as a
`SigningError`. -/
def signTransaction (transaction : TransactionRequest) (privateKey : List GF) :
    Except SigningErrorKind SignedTransaction :=
  if !(validKey privateKey) then .error .signingFailure
  else
    match (if truthy transaction.value then
        parseUnits (transaction.value.getD "") 18 else some 0) with
    | none => .error .signingFailure
    | some valueWei =>
      let baseTx : PreparedTx :=
        { toAddress := transaction.toAddress
          value := valueWei
          data := orDefault transaction.data "0x"
          gasLimit := orDefault transaction.gasLimit "21000"
          chainId := transaction.chainId
          nonce := transaction.nonce.getD 0 }
      if truthy transaction.maxFeePerGas && truthy transaction.maxPriorityFeePerGas then
        match parseUnits (transaction.maxFeePerGas.getD "") 9,
            parseUnits (transaction.maxPriorityFeePerGas.getD "") 9 with
        | some maxFee, some maxPriority =>
          .ok (walletSignAndParse
            { baseTx with maxFeePerGas := some maxFee,
                          maxPriorityFeePerGas := some maxPriority } privateKey)
        | _, _ => .error .signingFailure
      else if truthy transaction.gasPrice then
        match parseUnits (transaction.gasPrice.getD "") 9 with
        | some price =>
          .ok (walletSignAndParse { baseTx with gasPrice := some price } privateKey)
        | none => .error .signingFailure
      else .ok (walletSignAndParse baseTx privateKey)

/-- Fields extracted by `ethers.utils.parseTransaction`, as used by
`verifyTransactionSignature` (`from` and `hash` may be absent). -/
structure ParsedTransaction where
  txFrom : Option String
  txHash : Option String
deriving DecidableEq, Repr

/-- Result record of `verifyTransactionSignature`. -/
structure VerifyResult where
  isValid : Bool
  signer : String
  hash : String
deriving DecidableEq, Repr

/-- `TransactionSigner.verifyTransactionSignature`: the decoder
(`ethers.utils.parseTransaction`) is passed explicitly, with `none` for a
payload it cannot decode (a thrown parse error); the catch branch returns
`isValid:false` with zeroed (`"0x"`) fields. -/
def verifyTransactionSignature (parseTx : String → Option ParsedTransaction)
    (signedTx : String) : VerifyResult :=
  match parseTx signedTx with
  | none => ⟨false, "0x", "0x"⟩
  | some p => ⟨truthy p.txFrom, orDefault p.txFrom "0x", orDefault p.txHash "0x"⟩

/-- `TransactionSigner.estimateGas`: `'21000'` for a plain transfer; with
payload data (a truthy `0x…` string longer than two characters),
`21000 + byteLength · 16 + 50000`.  The byte length is
`(data.length - 2) / 2` in exact JavaScript arithmetic, written here as
`(data.length - 2) * 16 / 2`, which is the same number and exact in `ℕ`.
The body cannot throw, so the `catch` wrapper is omitted. -/
def estimateGas (transaction : TransactionRequest) : String :=
  match transaction.data with
  | none => "21000"
  | some d =>
    if d ≠ "" ∧ d ≠ "0x" ∧ 2 < d.length then
      toString (21000 + (d.length - 2) * 16 / 2 + 50000)
    else "21000"

end TransactionSigner

/-! ### Attestation Provider (`attestation.ts`) -/

/-- Error kinds of the attestation provider, following the spec's
`AttestationError` taxonomy. -/
inductive AttestationErrorKind
  | notInitialized
  | verificationFailure
deriving DecidableEq, Repr

/-- Source `AttestationDocument` (`types.ts`); `pcrs` is the
number-indexed record of measurement digests, `timestamp` is a
`Date.now()` millisecond value. -/
structure AttestationDocument where
  moduleId : String
  timestamp : Int
  digest : String
  pcrs : List (Nat × String)
  certificate : String
  cabundle : List String
  publicKey : Option String := none
  userData : Option String := none
  nonce : Option String := none
deriving DecidableEq, Repr

/-- A `Partial<EnclaveMeasurements>` argument: each of the four named
measurements may be absent. -/
structure ExpectedMeasurements where
  pcr0 : Option String := none
  pcr1 : Option String := none
  pcr2 : Option String := none
  pcr8 : Option String := none
deriving DecidableEq, Repr

/-- `Object.entries(expectedMeasurements)` with each key `pcrN` parsed to
its number `N` (`parseInt(pcr.replace('pcr', ''))`), in field order,
keeping only present fields. -/
def measurementEntries (m : ExpectedMeasurements) : List (Nat × String) :=
  ([(0, m.pcr0), (1, m.pcr1), (2, m.pcr2), (8, m.pcr8)] :
      List (Nat × Option String)).filterMap
    (fun e => e.2.map (fun digestVal => (e.1, digestVal)))

/-- JavaScript property access `pcrs[n]` (`undefined` when absent). -/
def lookupPcr (pcrs : List (Nat × String)) (n : Nat) : Option String :=
  match pcrs with
  | [] => none
  | p :: rest => if p.1 = n then some p.2 else lookupPcr rest n

namespace AttestationProvider

/-- Body of the `try` block of `verifyAttestation`: reject a document
older than five minutes (`now − timestamp > 300000` ms), then — when
expected measurements are supplied — reject on the first PCR mismatch,
else accept.  Every operation in the block is total, so no `.error` is
ever produced. -/
def verifyAttestationChecked (now : Int) (attestationDoc : AttestationDocument)
    (expectedMeasurements : Option ExpectedMeasurements) :
    Except AttestationErrorKind Bool :=
  if now - attestationDoc.timestamp > 300000 then .ok false
  else
    match expectedMeasurements with
    | none => .ok true
    | some m =>
      if (measurementEntries m).all
          (fun e => lookupPcr attestationDoc.pcrs e.1 == some e.2) then
        .ok true
      else .ok false

/-- `AttestationProvider.verifyAttestation`: the `try` body with its
`catch` branch, which maps any internal failure to `false`. -/
def verifyAttestation (now : Int) (attestationDoc : AttestationDocument)
    (expectedMeasurements : Option ExpectedMeasurements) : Bool :=
  match verifyAttestationChecked now attestationDoc expectedMeasurements with
  | .ok b => b
  | .error _ => false

end AttestationProvider

/-! ### Concrete test data -/

/-- A concrete 32-byte test key, a valid secp256k1 scalar whose derived
address contains uppercase hex letters. -/
def ckey : List GF := 30 :: List.replicate 30 7 ++ [9]

/-- A concrete deterministic entropy stream for splits. -/
def cent : Nat → Nat → GF := fun i k => ((i + 2 * k + 1 : Nat) : GF)

/-- Shares of `ckey` split with threshold 2 of 2. -/
def cbufs2 : List ShareBuf :=
  (KeyManager.splitPrivateKey ckey ⟨2, 2⟩ cent).toOption.getD []

/-- Shares of `ckey` split with threshold 3 of 5. -/
def cbufs3 : List ShareBuf :=
  (KeyManager.splitPrivateKey ckey ⟨3, 5⟩ cent).toOption.getD []

/-- Shares of `ckey` split with threshold 4 of 5. -/
def cbufs4 : List ShareBuf :=
  (KeyManager.splitPrivateKey ckey ⟨4, 5⟩ cent).toOption.getD []

/-- The threshold-3 shares at indices 0, 2 and 4, in the request shape of
`reconstructPrivateKey`. -/
def cshares3 : List (Nat × ShareBuf) :=
  [0, 2, 4].map (fun j => (j, cbufs3.getD j ((0 : GF), [])))

/-- The key-manager state holding the single cache entry produced by a
successful reconstruction of `ckey` from the empty state. -/
def cstate : KeyManagerState :=
  ⟨cacheSet [] (toLowerStr (walletAddressOf ckey)) ckey⟩

end SelfHostedWallets

deriving instance DecidableEq for Except

set_option maxRecDepth 200000

namespace SelfHostedWallets

/-! ### Claim theorems -/

/-- C1, counterexample: with `threshold = shareCount = 2` (which satisfies
`2 ≤ threshold ≤ shareCount`) the split succeeds, yet reconstruction from
all — and hence exactly `threshold` — of the shares fails with
`InsufficientShares` instead of returning the original key, because the
reconstruction minimum is hardcoded to three shares. -/
theorem c1_threshold_two_roundtrip_fails :
    KeyManager.splitPrivateKey ckey ⟨2, 2⟩ cent = .ok cbufs2 ∧
    cbufs2.length = 2 ∧
    KeyManager.reconstructPrivateKey ⟨[]⟩ cbufs2.enum =
      .error .insufficientShares := by
  refine ⟨by decide, by decide, by decide⟩

/-- C1, amended: for every valid 32-byte private key and every
`(threshold, shareCount)` with `3 ≤ threshold ≤ shareCount ≤ 255`,
splitting and then reconstructing from any subset of at least `threshold`
of the shares succeeds and yields the original private key (and caches it
under the lowercased derived address). -/
theorem c1_split_reconstruct_roundtrip
    (st : KeyManagerState) (secret : List GF) (config : SSSConfig)
    (entropy : Nat → Nat → GF) (bufs : List ShareBuf) (sel : List Nat)
    (hkey : validKey secret = true)
    (h3 : 3 ≤ config.threshold) (hts : config.threshold ≤ config.numShares)
    (hn : config.numShares ≤ 255)
    (hsplit : KeyManager.splitPrivateKey secret config entropy = .ok bufs)
    (hnodup : sel.Nodup) (hmem : ∀ j ∈ sel, j < config.numShares)
    (hcard : config.threshold ≤ sel.length) :
    KeyManager.reconstructPrivateKey st
        (sel.map (fun j => (j, bufs.getD j ((0 : GF), [])))) =
      .ok (secret,
        ⟨cacheSet st.keyCache (toLowerStr (walletAddressOf secret)) secret⟩) := by
  have hsss : sssSplit secret config entropy = .ok bufs := by
    unfold KeyManager.splitPrivateKey at hsplit
    cases h : sssSplit secret config entropy <;> rw [h] at hsplit <;> simp_all
  have hcomb := sssCombine_selection secret config entropy bufs sel
    (by omega) hn hsss hnodup hmem hcard
  unfold KeyManager.reconstructPrivateKey
  have hlen : ¬ ((sel.map (fun j => (j, bufs.getD j ((0 : GF), [])))).length < 3) := by
    rw [List.length_map]
    omega
  rw [if_neg hlen]
  have hbuffers : (sel.map (fun j => (j, bufs.getD j ((0 : GF), [])))).map Prod.snd =
      sel.map (fun j => bufs.getD j ((0 : GF), [])) := by
    rw [List.map_map]
    rfl
  simp only [hbuffers, hcomb, hkey, if_true]

/-- C1, witness: the concrete threshold-3-of-5 split of `ckey`
reconstructs from shares 0, 2 and 4. -/
theorem c1_split_reconstruct_roundtrip_witness :
    KeyManager.reconstructPrivateKey ⟨[]⟩
        ([0, 2, 4].map (fun j => (j, cbufs3.getD j ((0 : GF), [])))) =
      .ok (ckey, ⟨cacheSet [] (toLowerStr (walletAddressOf ckey)) ckey⟩) :=
  c1_split_reconstruct_roundtrip ⟨[]⟩ ckey ⟨3, 5⟩ cent cbufs3 [0, 2, 4]
    (by decide) (by decide) (by decide) (by decide) (by decide) (by decide)
    (by decide) (by decide)

/-- C3, counterexample: on a threshold-4 split, reconstruction from only
three shares (fewer than the threshold) does not fail with
`InsufficientShares` — it succeeds and silently returns a key that is not
the original. -/
theorem c3_three_of_threshold_four_succeeds :
    KeyManager.splitPrivateKey ckey ⟨4, 5⟩ cent = .ok cbufs4 ∧
    (KeyManager.reconstructPrivateKey ⟨[]⟩ ((cbufs4.take 3).enum)).isOk = true ∧
    (KeyManager.reconstructPrivateKey ⟨[]⟩ ((cbufs4.take 3).enum)).toOption.map
        Prod.fst ≠ some ckey := by
  refine ⟨by decide, by decide, by decide⟩

/-- C3, amended: `reconstructPrivateKey` fails with `InsufficientShares`
exactly when fewer than three shares are supplied; the minimum is the
hardcoded constant three, independent of the threshold used at split
time. -/
theorem c3_insufficientShares_iff_lt_three
    (st : KeyManagerState) (shares : List (Nat × ShareBuf)) :
    KeyManager.reconstructPrivateKey st shares = .error .insufficientShares ↔
      shares.length < 3 := by
  unfold KeyManager.reconstructPrivateKey
  by_cases h : shares.length < 3
  · simp [h]
  · by_cases hv : validKey (sssCombine (shares.map Prod.snd)) = true
    · simp [h, hv]
    · simp [h, hv]

/-- C4: splitting fails with `InvalidParameters` whenever
`threshold > shareCount` or `threshold < 2` (validation performed by the
modelled secret-sharing library and surfaced by `splitPrivateKey`). -/
theorem c4_split_invalidParameters
    (privateKey : List GF) (config : SSSConfig) (entropy : Nat → Nat → GF)
    (h : config.numShares < config.threshold ∨ config.threshold < 2) :
    KeyManager.splitPrivateKey privateKey config entropy =
      .error .invalidParameters := by
  have hcond : (config.threshold < 2 || config.numShares < config.threshold) = true := by
    rcases h with h | h <;> simp [h]
  have hs : sssSplit privateKey config entropy = .error .invalidParameters := by
    unfold sssSplit
    rw [if_pos hcond]
  unfold KeyManager.splitPrivateKey
  rw [hs]

/-- C4, witness: a split with threshold 1 fails with `InvalidParameters`. -/
theorem c4_split_invalidParameters_witness :
    KeyManager.splitPrivateKey ckey ⟨1, 5⟩ cent = .error .invalidParameters :=
  c4_split_invalidParameters ckey ⟨1, 5⟩ cent (Or.inr (by decide))

/-- C2: after every successful reconstruction the cache maps the
lowercased derived wallet address to the reconstructed private key, and
the `/reconstruct-key` response is exactly the record of the derived
wallet address, the derived public key and the `keyReconstructed` flag —
a type with no private-key field. -/
theorem c2_reconstruct_caches_key_and_response_hides_it
    (st : KeyManagerState) (shares : List (Nat × ShareBuf))
    (privateKey : List GF) (st' : KeyManagerState)
    (h : KeyManager.reconstructPrivateKey st shares = .ok (privateKey, st')) :
    cacheGet st'.keyCache (toLowerStr (walletAddressOf privateKey)) =
      some privateKey ∧
    reconstructKeyHandler st shares =
      (.ok ⟨walletAddressOf privateKey, derivePublicKey privateKey, true⟩, st') := by
  have h0 := h
  unfold KeyManager.reconstructPrivateKey at h
  by_cases hlen : shares.length < 3
  · rw [if_pos hlen] at h
    exact absurd h (by simp)
  · rw [if_neg hlen] at h
    by_cases hv : validKey (sssCombine (shares.map Prod.snd)) = true
    · simp only [hv, if_true] at h
      obtain ⟨hk, hs⟩ := Prod.mk.injEq .. ▸ (Except.ok.injEq .. ▸ h)
      refine ⟨?_, ?_⟩
      · rw [← hs, ← hk]
        exact cacheGet_set_self _ _ _
      · unfold reconstructKeyHandler
        rw [if_neg hlen, h0]
        rfl
    · simp only [hv] at h
      exact absurd h (by simp)

/-- C2, witness: the concrete reconstruction of `ckey` caches it under
its lowercased address and the handler responds with address and public
key only. -/
theorem c2_reconstruct_caches_key_witness :
    cacheGet cstate.keyCache (toLowerStr (walletAddressOf ckey)) = some ckey ∧
    reconstructKeyHandler ⟨[]⟩ cshares3 =
      (.ok ⟨walletAddressOf ckey, derivePublicKey ckey, true⟩, cstate) :=
  c2_reconstruct_caches_key_and_response_hides_it ⟨[]⟩ cshares3 ckey cstate
    (by decide)

/-- C9: a successful reconstruction stores the key under the lowercased
derived address (so every entry added to the cache carries a lowercased
key, and lookups/deletions — which also lowercase their argument — are
case-insensitive): for every string `x` that agrees with the derived
address up to letter case, `getCachedPrivateKey x` returns the cached key
and `clearCachedKey x` removes the entry for the address. -/
theorem c9_keyCache_lowercase_case_insensitive
    (st : KeyManagerState) (shares : List (Nat × ShareBuf))
    (privateKey : List GF) (st' : KeyManagerState)
    (h : KeyManager.reconstructPrivateKey st shares = .ok (privateKey, st')) :
    st'.keyCache =
      cacheSet st.keyCache (toLowerStr (walletAddressOf privateKey)) privateKey ∧
    (∀ x, toLowerStr x = toLowerStr (walletAddressOf privateKey) →
      KeyManager.getCachedPrivateKey st' x = some privateKey ∧
      (∀ y, toLowerStr y = toLowerStr (walletAddressOf privateKey) →
        KeyManager.getCachedPrivateKey (KeyManager.clearCachedKey st' x) y =
          none)) := by
  unfold KeyManager.reconstructPrivateKey at h
  by_cases hlen : shares.length < 3
  · rw [if_pos hlen] at h
    exact absurd h (by simp)
  · rw [if_neg hlen] at h
    by_cases hv : validKey (sssCombine (shares.map Prod.snd)) = true
    · simp only [hv, if_true] at h
      obtain ⟨hk, hs⟩ := Prod.mk.injEq .. ▸ (Except.ok.injEq .. ▸ h)
      subst hk
      refine ⟨hs.symm ▸ rfl, fun x hx => ⟨?_, fun y hy => ?_⟩⟩
      · unfold KeyManager.getCachedPrivateKey
        rw [hx, ← hs]
        exact cacheGet_set_self _ _ _
      · unfold KeyManager.getCachedPrivateKey KeyManager.clearCachedKey
        rw [hy, hx]
        exact cacheGet_del_self _ _
    · simp only [hv] at h
      exact absurd h (by simp)

/-- C9, witness: the all-lowercase variant of the mixed-case derived
address of `ckey` finds the cached key, and clearing through it removes
the entry for the original address. -/
theorem c9_keyCache_case_insensitive_witness :
    KeyManager.getCachedPrivateKey cstate (toLowerStr (walletAddressOf ckey)) =
      some ckey ∧
    KeyManager.getCachedPrivateKey
        (KeyManager.clearCachedKey cstate (toLowerStr (walletAddressOf ckey)))
        (walletAddressOf ckey) = none := by
  have h := c9_keyCache_lowercase_case_insensitive ⟨[]⟩ cshares3 ckey cstate
    (by decide)
  exact ⟨(h.2 (toLowerStr (walletAddressOf ckey)) (by decide)).1,
    (h.2 (toLowerStr (walletAddressOf ckey)) (by decide)).2
      (walletAddressOf ckey) rfl⟩

/-- A concrete request carrying both a legacy `gasPrice` and the full
fee-market pair. -/
def creq5 : TransactionRequest :=
  { toAddress := "0xabc", value := some "1.0", gasPrice := some "20",
    maxFeePerGas := some "30", maxPriorityFeePerGas := some "2", chainId := 1 }

/-- A concrete request carrying `maxFeePerGas` without
`maxPriorityFeePerGas` and no `gasPrice`. -/
def creq5b : TransactionRequest :=
  { toAddress := "0xabc", value := some "1.0", maxFeePerGas := some "30",
    chainId := 1 }

/-- The transaction object that `signTransaction` prepares for `creq5`:
EIP-1559 fees only, the `gasPrice` silently dropped. -/
def cprep5 : PreparedTx :=
  { toAddress := "0xabc", value := 10 ^ 18, data := "0x", gasLimit := "21000",
    chainId := 1, nonce := 0, maxFeePerGas := some 30000000000,
    maxPriorityFeePerGas := some 2000000000 }

/-- C5, counterexample: signing a request that sets both `gasPrice` and
the fee-market pair does not fail with `AmbiguousFeeModel` — it succeeds
as an EIP-1559 transaction that ignores `gasPrice`; likewise a request
with only `maxFeePerGas` succeeds (with no fee fields at all) instead of
failing. -/
theorem c5_ambiguous_fees_accepted :
    TransactionSigner.signTransaction creq5 ckey =
      .ok (walletSignAndParse cprep5 ckey) ∧
    TransactionSigner.signTransaction creq5 ckey ≠
      .error .ambiguousFeeModel ∧
    (TransactionSigner.signTransaction creq5b ckey).isOk = true := by
  refine ⟨by decide, by decide, by decide⟩

/-- C5, amended: `signTransaction` performs no fee-model validation and
never fails with `AmbiguousFeeModel`; when both fee-market fields are
(truthily) present it signs as a fee-market transaction with `gasPrice`
unset, and otherwise it signs with no fee-market fields, carrying a
`gasPrice` exactly when one is (truthily) present. -/
theorem c5_signTransaction_no_fee_validation
    (transaction : TransactionRequest) (privateKey : List GF) :
    TransactionSigner.signTransaction transaction privateKey ≠
      .error .ambiguousFeeModel ∧
    (∀ s, TransactionSigner.signTransaction transaction privateKey = .ok s →
      ((truthy transaction.maxFeePerGas &&
          truthy transaction.maxPriorityFeePerGas) = true →
        s.gasPrice = none ∧ s.maxFeePerGas.isSome = true ∧
          s.maxPriorityFeePerGas.isSome = true) ∧
      ((truthy transaction.maxFeePerGas &&
          truthy transaction.maxPriorityFeePerGas) = false →
        s.maxFeePerGas = none ∧ s.maxPriorityFeePerGas = none ∧
          s.gasPrice.isSome = truthy transaction.gasPrice)) := by
  unfold TransactionSigner.signTransaction
  by_cases hk : validKey privateKey
  · simp only [hk, Bool.not_true, Bool.false_eq_true, if_false]
    cases hval : (if truthy transaction.value then
        parseUnits (transaction.value.getD "") 18 else some 0) with
    | none => exact ⟨by simp, by simp⟩
    | some valueWei =>
      by_cases hboth : (truthy transaction.maxFeePerGas &&
          truthy transaction.maxPriorityFeePerGas) = true
      · simp only [hboth, if_true]
        cases hmf : parseUnits (transaction.maxFeePerGas.getD "") 9 with
        | none => exact ⟨by simp, by simp⟩
        | some maxFee =>
          cases hmp : parseUnits (transaction.maxPriorityFeePerGas.getD "") 9 with
          | none => exact ⟨by simp, by simp⟩
          | some maxPriority =>
            refine ⟨by simp, fun s hs => ?_⟩
            rw [Except.ok.injEq] at hs
            subst hs
            exact ⟨fun _ => ⟨rfl, rfl, rfl⟩, fun hc => absurd hc (by decide)⟩
      · rw [Bool.not_eq_true] at hboth
        simp only [hboth, Bool.false_eq_true, if_false]
        by_cases hgp : truthy transaction.gasPrice = true
        · simp only [hgp, if_true]
          cases hpr : parseUnits (transaction.gasPrice.getD "") 9 with
          | none => exact ⟨by simp, by simp⟩
          | some price =>
            refine ⟨by simp, fun s hs => ?_⟩
            rw [Except.ok.injEq] at hs
            subst hs
            exact ⟨fun hc => absurd hc (by simp [hboth]),
              fun _ => ⟨rfl, rfl, rfl⟩⟩
        · rw [Bool.not_eq_true] at hgp
          simp only [hgp, Bool.false_eq_true, if_false]
          refine ⟨by simp, fun s hs => ?_⟩
          rw [Except.ok.injEq] at hs
          subst hs
          exact ⟨fun hc => absurd hc (by simp [hboth]),
            fun _ => ⟨rfl, rfl, rfl⟩⟩
  · rw [Bool.not_eq_true] at hk
    simp only [hk, Bool.not_false, if_true]
    exact ⟨by simp, by simp⟩

/-- C5, witness: the amended theorem applied to the concrete
both-models request. -/
theorem c5_signTransaction_no_fee_validation_witness :
    (walletSignAndParse cprep5 ckey).gasPrice = none ∧
    (walletSignAndParse cprep5 ckey).maxFeePerGas.isSome = true ∧
    (walletSignAndParse cprep5 ckey).maxPriorityFeePerGas.isSome = true :=
  ((c5_signTransaction_no_fee_validation creq5 ckey).2
    (walletSignAndParse cprep5 ckey) (by decide)).1 (by decide)

/-- C6: `verifyTransactionSignature` is total — when the payload cannot
be decoded it returns `isValid = false` with the signer and hash zeroed
to `"0x"`, and it reports `isValid = true` only when decoding succeeded
with a recoverable signer. -/
theorem c6_verifyTransactionSignature_never_fails
    (parseTx : String → Option TransactionSigner.ParsedTransaction)
    (signedTx : String) :
    (parseTx signedTx = none →
      TransactionSigner.verifyTransactionSignature parseTx signedTx =
        ⟨false, "0x", "0x"⟩) ∧
    ((TransactionSigner.verifyTransactionSignature parseTx signedTx).isValid =
        true →
      ∃ p, parseTx signedTx = some p ∧ truthy p.txFrom = true) := by
  unfold TransactionSigner.verifyTransactionSignature
  cases h : parseTx signedTx with
  | none => exact ⟨fun _ => rfl, by simp⟩
  | some p =>
    exact ⟨fun hc => Option.noConfusion hc, fun hv => ⟨p, rfl, hv⟩⟩

/-- C6, witness: a decoder that rejects the payload yields the zeroed
result. -/
theorem c6_verifyTransactionSignature_witness :
    TransactionSigner.verifyTransactionSignature (fun _ => none) "nonsense" =
      ⟨false, "0x", "0x"⟩ :=
  (c6_verifyTransactionSignature_never_fails (fun _ => none) "nonsense").1 rfl

/-- C7: with matching expected measurements, `verifyAttestation` returns
`false` exactly when the document is older than the 300-second freshness
window (`now − timestamp > 300000` milliseconds) and `true` when it is
within the window. -/
theorem c7_verifyAttestation_freshness
    (now : Int) (attestationDoc : AttestationDocument)
    (m : ExpectedMeasurements)
    (hmatch : (measurementEntries m).all
      (fun e => lookupPcr attestationDoc.pcrs e.1 == some e.2) = true) :
    (300000 < now - attestationDoc.timestamp →
      AttestationProvider.verifyAttestation now attestationDoc (some m) =
        false) ∧
    (now - attestationDoc.timestamp ≤ 300000 →
      AttestationProvider.verifyAttestation now attestationDoc (some m) =
        true) := by
  unfold AttestationProvider.verifyAttestation
    AttestationProvider.verifyAttestationChecked
  constructor
  · intro h
    rw [if_pos h]
  · intro h
    rw [if_neg (not_lt.mpr h)]
    simp [hmatch]

/-- A concrete attestation document issued at time 0. -/
def cdoc : AttestationDocument :=
  { moduleId := "i-0011223344556677", timestamp := 0, digest := "dg",
    pcrs := [(0, "aa"), (1, "bb"), (2, "cc"), (8, "dd")],
    certificate := "cert", cabundle := ["ca"] }

/-- Concrete expected measurements matching `cdoc` on PCR0 and PCR1. -/
def cmeasure : ExpectedMeasurements := { pcr0 := some "aa", pcr1 := some "bb" }

/-- C7, witness: with matching measurements, a 301-second-old document is
rejected and a 100-second-old one is accepted. -/
theorem c7_verifyAttestation_freshness_witness :
    AttestationProvider.verifyAttestation 301000 cdoc (some cmeasure) = false ∧
    AttestationProvider.verifyAttestation 100000 cdoc (some cmeasure) = true :=
  ⟨(c7_verifyAttestation_freshness 301000 cdoc cmeasure (by decide)).1
      (by decide),
    (c7_verifyAttestation_freshness 100000 cdoc cmeasure (by decide)).2
      (by decide)⟩

/-- C8: `estimateGas` answers `"21000"` when no payload data is present
(absent or the empty `"0x"` payload), and
`21000 + 16 · byteLength + 50000` when a `0x`-prefixed payload of
`b > 0` bytes (hence of string length `2 + 2b`) is present. -/
theorem c8_estimateGas_formula
    (transaction : TransactionRequest) (d : String) (b : Nat) :
    (transaction.data = none →
      TransactionSigner.estimateGas transaction = "21000") ∧
    (transaction.data = some "0x" →
      TransactionSigner.estimateGas transaction = "21000") ∧
    (transaction.data = some d → d.length = 2 + 2 * b → 0 < b →
      TransactionSigner.estimateGas transaction =
        toString (21000 + 16 * b + 50000)) := by
  refine ⟨fun h => by simp [TransactionSigner.estimateGas, h],
    fun h => by simp [TransactionSigner.estimateGas, h],
    fun h hlen hb => ?_⟩
  unfold TransactionSigner.estimateGas
  rw [h]
  have hne : d ≠ "" := by
    intro he
    rw [he] at hlen
    have h0 : (0 : Nat) = 2 + 2 * b := hlen
    omega
  have hne2 : d ≠ "0x" := by
    intro he
    rw [he] at hlen
    have : (2 : Nat) = 2 + 2 * b := hlen
    omega
  have hgt : 2 < d.length := by omega
  show (if d ≠ "" ∧ d ≠ "0x" ∧ 2 < d.length then
      toString (21000 + (d.length - 2) * 16 / 2 + 50000) else "21000") =
    toString (21000 + 16 * b + 50000)
  rw [if_pos ⟨hne, hne2, hgt⟩]
  have harith : 21000 + (d.length - 2) * 16 / 2 + 50000 =
      21000 + 16 * b + 50000 := by
    rw [hlen]
    omega
  rw [harith]

/-- A concrete request with 100 bytes of payload data. -/
def creq8 : TransactionRequest :=
  { toAddress := "0xabc", chainId := 1,
    data := some ⟨'0' :: 'x' :: List.replicate 200 '6'⟩ }

/-- A concrete request with no payload data. -/
def creq8none : TransactionRequest := { toAddress := "0xabc", chainId := 1 }

/-- C8, witness: no data gives `"21000"`; 100 bytes of data give
`21000 + 1600 + 50000 = 72600`. -/
theorem c8_estimateGas_witness :
    TransactionSigner.estimateGas creq8none = "21000" ∧
    TransactionSigner.estimateGas creq8 = toString (21000 + 16 * 100 + 50000) ∧
    toString (21000 + 16 * 100 + 50000) = "72600" :=
  ⟨(c8_estimateGas_formula creq8none "" 0).1 rfl,
    (c8_estimateGas_formula creq8 ⟨'0' :: 'x' :: List.replicate 200 '6'⟩ 100).2.2
      rfl (by decide) (by decide),
    by decide⟩

/-- C10: `verifyAttestation` is total over its inputs: the `try` body
(`verifyAttestationChecked`) never raises — it always produces the very
boolean that `verifyAttestation` returns, and the `catch` branch mapping
internal failures to `false` is therefore never exercised. -/
theorem c10_verifyAttestation_total
    (now : Int) (attestationDoc : AttestationDocument)
    (expectedMeasurements : Option ExpectedMeasurements) :
    AttestationProvider.verifyAttestationChecked now attestationDoc
        expectedMeasurements =
      .ok (AttestationProvider.verifyAttestation now attestationDoc
        expectedMeasurements) := by
  unfold AttestationProvider.verifyAttestation
    AttestationProvider.verifyAttestationChecked
  split
  · rfl
  · split
    · rfl
    · split
      · rfl
      · rfl

end SelfHostedWallets
